import Mathlib

/-!
Verification of `serenity-commands`: a shallow embedding of the runtime
parsing functions of `src/lib.rs` and of the code generated by the derive
macros in `src/macros` (the macros emit, for each declared shape, a
schema-construction function and a parse function; here we embed the parse
functions, parameterised by the declaration's shape data that the macro
reads at expansion time).

Wire values follow `serenity::all::CommandDataOptionValue` /
`CommandDataOption` / `CommandData`; machine integers are modelled as `Int`
with explicit reduction modulo `2 ^ w`; fallible code returns
`Except Error`.
-/

/-- The kinds of command options (`serenity::all::CommandOptionType`). -/
inductive CommandOptionType where
  | subCommand
  | subCommandGroup
  | string
  | integer
  | boolean
  | user
  | channel
  | role
  | mentionable
  | number
  | attachment
deriving DecidableEq, Repr

/-- A wire option value (`serenity::all::CommandDataOptionValue`).  The
`number` payload stands in for the `f64` bit pattern; no claim computes
with it.  Nested options are `(name, value)` pairs, matching
`CommandDataOption { name, value }`. -/
inductive CommandDataOptionValue where
  | autocomplete (kind : CommandOptionType) (value : String)
  | boolean (b : Bool)
  | integer (i : Int)
  | number (bits : Int)
  | string (s : String)
  | subCommand (options : List (String × CommandDataOptionValue))
  | subCommandGroup (options : List (String × CommandDataOptionValue))
  | user (id : Nat)
  | channel (id : Nat)
  | role (id : Nat)
  | mentionable (id : Nat)
  | attachment (id : Nat)

/-- One named wire option (`serenity::all::CommandDataOption`):
`.1` is the `name` field, `.2` the `value` field. -/
abbrev CommandDataOption := String × CommandDataOptionValue

/-- `CommandDataOptionValue::kind`. -/
def CommandDataOptionValue.kind : CommandDataOptionValue → CommandOptionType
  | .autocomplete k _ => k
  | .boolean _ => .boolean
  | .integer _ => .integer
  | .number _ => .number
  | .string _ => .string
  | .subCommand _ => .subCommand
  | .subCommandGroup _ => .subCommandGroup
  | .user _ => .user
  | .channel _ => .channel
  | .role _ => .role
  | .mentionable _ => .mentionable
  | .attachment _ => .attachment

/-- Whether a wire value is the `Autocomplete { .. }` variant (the marker
serenity puts on the option currently being typed). -/
def CommandDataOptionValue.isAutocompleteMarked : CommandDataOptionValue → Bool
  | .autocomplete _ _ => true
  | _ => false

/-- Top-level interaction data (`serenity::all::CommandData`): its `name`
and `options` fields. -/
structure CommandData where
  name : String
  options : List CommandDataOption

/-- Models `serenity`'s `CommandData::autocomplete().is_some()`: walk the
options; on the first sub-command or sub-command-group, descend and return
its answer; `true` on the first `Autocomplete` marker. -/
def findFocusedList : List CommandDataOption → Bool
  | [] => false
  | (_, .subCommand opts) :: _ => findFocusedList opts
  | (_, .subCommandGroup opts) :: _ => findFocusedList opts
  | (_, .autocomplete _ _) :: _ => true
  | _ :: rest => findFocusedList rest

/-- The runtime error type (`serenity_commands::Error`); `custom` carries
the boxed error's message. -/
inductive Error where
  | unknownCommand (name : String)
  | incorrectCommandOptionType (got expected : CommandOptionType)
  | incorrectCommandOptionCount (got expected : Nat)
  | unknownCommandOption (name : String)
  | unknownAutocompleteOption (name : String)
  | missingRequiredCommandOption
  | unexpectedAutocompleteOption
  | missingAutocompleteOption
  | unknownChoice (value : String)
  | custom (msg : String)
deriving DecidableEq, Repr

instance {ε α : Type} [DecidableEq ε] [DecidableEq α] : DecidableEq (Except ε α) :=
  fun a b =>
    match a, b with
    | .error e, .error f =>
      if h : e = f then .isTrue (by rw [h]) else
        .isFalse (by intro hh; injection hh; contradiction)
    | .error _, .ok _ => .isFalse (by intro hh; injection hh)
    | .ok _, .error _ => .isFalse (by intro hh; injection hh)
    | .ok x, .ok y =>
      if h : x = y then .isTrue (by rw [h]) else
        .isFalse (by intro hh; injection hh; contradiction)

/-- `true` on `.ok _`, `false` on `.error _`. -/
def exceptIsOk {ε α : Type} : Except ε α → Bool
  | .ok _ => true
  | .error _ => false

/-! ## Built-in `BasicOption` implementations (`src/lib.rs`) -/

/-- `impl BasicOption for String::from_value` (from the
`impl_command_option!` macro, `String` instance). -/
def stringFromValue (value : Option CommandDataOptionValue) : Except Error String :=
  match value with
  | none => .error .missingRequiredCommandOption
  | some (.string s) => .ok s
  | some v => .error (.incorrectCommandOptionType v.kind .string)

/-- `impl BasicOption for char::from_value`: parse as `String`, then
require exactly one character. -/
def charFromValue (value : Option CommandDataOptionValue) : Except Error Char :=
  match stringFromValue value with
  | .error e => .error e
  | .ok s =>
    match s.data with
    | [c] => .ok c
    | _ => .error (.custom "expected single character")

/-- The `v as $Ty` cast of a wire `i64` to a `w`-bit integer type:
truncating two's-complement (reduce modulo `2 ^ w`; for a signed target,
re-centre into `[-2 ^ (w - 1), 2 ^ (w - 1))`). -/
def castI64 (w : Nat) (signed : Bool) (v : Int) : Int :=
  let r := v % ((2 : Int) ^ w)
  if signed ∧ (2 : Int) ^ (w - 1) ≤ r then r - (2 : Int) ^ w else r

/-- `from_value` generated by `impl_integer_command_option!` for a `w`-bit
integer target (`u8` … `i128`): a present `Integer` wire value is cast with
`as`; any other kind is a type error. -/
def intFromValue (w : Nat) (signed : Bool)
    (value : Option CommandDataOptionValue) : Except Error Int :=
  match value with
  | none => .error .missingRequiredCommandOption
  | some (.integer v) => .ok (castI64 w signed v)
  | some v => .error (.incorrectCommandOptionType v.kind .integer)

/-- `impl<T: BasicOption> BasicOption for Option<T>::from_value`:
`value.map(|option| T::from_value(Some(option))).transpose()`, with the
inner implementation abstracted as `tFrom`. -/
def optionFromValue {α : Type}
    (tFrom : Option CommandDataOptionValue → Except Error α)
    (value : Option CommandDataOptionValue) : Except Error (Option α) :=
  match value.map (fun o => tFrom (some o)) with
  | none => .ok none
  | some (.ok x) => .ok (some x)
  | some (.error e) => .error e

/-- `serenity_commands::PartialOption<T>`: either a fully parsed value of
`T` (here `α`) or a coarse value of `T::Partial` (here `π`) together with
the error that blocked full parsing. -/
inductive PartialOption (α π : Type) where
  | Value (v : α)
  | Partial (p : π) (e : Error)
deriving DecidableEq, Repr

/-- `impl<T: BasicOption> BasicOption for PartialOption<T>::from_value`,
with `T::from_value` abstracted as `tFrom` and `T::Partial::from_value` as
`pFrom`. -/
def partialOptionFromValue {α π : Type}
    (tFrom : Option CommandDataOptionValue → Except Error α)
    (pFrom : Option CommandDataOptionValue → Except Error π)
    (value : Option CommandDataOptionValue) : Except Error (PartialOption α π) :=
  match tFrom value with
  | .ok v => .ok (.Value v)
  | .error e =>
    match pFrom value with
    | .ok p => .ok (.Partial p e)
    | .error e2 => .error e2

/-! ## Named-field parsing (`src/macros/src/field.rs`, `Field::from_options`)

The derive macros generate, for a named-field shape, a fold over the input
options: one optional accumulator slot per declared field, each input entry
matched by name against the field-name match arms in declaration order
(unknown names abort with `UnknownCommandOption`), then one
`BasicOption::from_value` call per slot in declaration order. -/

/-- A declared named field as the macro sees it: its resolved wire name
(kebab-case of the identifier, or the explicit `name` override) and the
`from_value` of its (`with`-overridden or own) `BasicOption`
implementation, all landing in a common value type `α`. -/
structure FieldDecl (α : Type) where
  name : String
  fromValue : Option CommandDataOptionValue → Except Error α

/-- Index of the first generated match arm whose field name equals `name`
(the arm that assigns `acc.#idx`); `none` falls to the catch-all arm. -/
def slotIdx (names : List String) (name : String) : Option Nat :=
  match names with
  | [] => none
  | n :: rest => if n = name then some 0 else (slotIdx rest name).map (· + 1)

/-- One step of the generated `try_fold`: on the arm for slot `i`, store
the entry's value there; on the catch-all arm, fail with
`UnknownCommandOption`.  An already-failed accumulator is absorbing (the
`?` early exit). -/
def foldStep (names : List String)
    (acc : Except Error (List (Option CommandDataOptionValue)))
    (o : CommandDataOption) : Except Error (List (Option CommandDataOptionValue)) :=
  match acc with
  | .error e => .error e
  | .ok slots =>
    match slotIdx names o.1 with
    | some i => .ok (slots.set i (some o.2))
    | none => .error (.unknownCommandOption o.1)

/-- The generated `try_fold` itself, starting from all-`None` slots. -/
def foldOptions (names : List String) (options : List CommandDataOption) :
    Except Error (List (Option CommandDataOptionValue)) :=
  options.foldl (foldStep names) (.ok (List.replicate names.length none))

/-- `Field::from_options(fields, false)` as used for a named-field shape:
run the fold, then run each field's `from_value` over its slot in
declaration order (`#ident: #path_base::from_value(acc.#idx)?`). -/
def fromOptionsNamed {α : Type} (fields : List (FieldDecl α))
    (options : List CommandDataOption) : Except Error (List α) :=
  match foldOptions (fields.map (·.name)) options with
  | .error e => .error e
  | .ok slots => (fields.zip slots).mapM (fun fs => fs.1.fromValue fs.2)

/-! ## Autocomplete named-field parsing
(`src/macros/src/field.rs`, `Field::from_autocomplete_options`) -/

/-- A declared field of an autocomplete-capable shape: wire name, whether
it carries the `autocomplete` flag, and the `from_value` used in the
generated field initialiser. -/
structure AutoFieldDecl (α : Type) where
  name : String
  flagged : Bool
  fromValue : Option CommandDataOptionValue → Except Error α

/-- The field initialiser generated by `Field::from_options(fields, true)`:
for an autocomplete-flagged field whose slot holds an `Autocomplete`
marker, re-wrap the marker's text as a `String` wire value before calling
`from_value`; otherwise call `from_value` on the slot directly. -/
def autoFieldInit {α : Type} (f : AutoFieldDecl α)
    (slot : Option CommandDataOptionValue) : Except Error α :=
  if f.flagged then
    match slot with
    | some (.autocomplete _ v) => f.fromValue (some (.string v))
    | _ => f.fromValue slot
  else f.fromValue slot

/-- Index (counting from `i` over all declared fields) of the first
generated autocomplete match arm — the arms are emitted only for
autocomplete-flagged fields — whose name equals `name`. -/
def findFlagged {α : Type} (fields : List (AutoFieldDecl α)) (i : Nat)
    (name : String) : Option Nat :=
  match fields with
  | [] => none
  | f :: rest =>
    if f.flagged ∧ f.name = name then some i else findFlagged rest (i + 1) name

/-- `Field::from_autocomplete_options`: run the (same) name-matching fold,
then `find_map` the first input entry whose value is the `Autocomplete`
marker and dispatch on its name over the autocomplete-flagged fields'
arms; an unmatched name is `UnknownAutocompleteOption`, no marked entry is
`MissingAutocompleteOption`.  The result pairs the matched field's index
(identifying the generated enum variant) with the field initialiser
values. -/
def fromAutocompleteOptionsNamed {α : Type} (fields : List (AutoFieldDecl α))
    (options : List CommandDataOption) : Except Error (Nat × List α) :=
  match foldOptions (fields.map (·.name)) options with
  | .error e => .error e
  | .ok slots =>
    match options.find? (fun o => o.2.isAutocompleteMarked) with
    | some o =>
      match findFlagged fields 0 o.1 with
      | some i =>
        match (fields.zip slots).mapM (fun fs => autoFieldInit fs.1 fs.2) with
        | .ok vals => .ok (i, vals)
        | .error e => .error e
      | none => .error (.unknownAutocompleteOption o.1)
    | none => .error .missingAutocompleteOption

/-! ## Role drivers -/

/-- The parsed payload of an enum variant: unit variant, named-field
variant (field values in declaration order), or newtype variant holding
the delegated inner parse result. -/
inductive VariantValue (α β : Type) where
  | unit
  | named (vals : List α)
  | inner (v : β)
deriving DecidableEq, Repr

/-- The shape of one variant of a `#[derive(Commands)]` enum; a newtype
variant delegates to the inner type's `Command::from_options` (abstracted
as a function on the option list). -/
inductive CommandsVariantShape (α β : Type) where
  | unit
  | named (fields : List (FieldDecl α))
  | newtype (innerFromOptions : List CommandDataOption → Except Error β)

/-- One declared variant of a `#[derive(Commands)]` enum: resolved wire
name plus shape. -/
structure CommandsVariant (α β : Type) where
  name : String
  shape : CommandsVariantShape α β

/-- The body of the generated match arm for one `Commands` variant
(`Variant::from_command_options` in `src/macros/src/variant.rs`). -/
def commandsArm {α β : Type} (shape : CommandsVariantShape α β)
    (options : List CommandDataOption) : Except Error (VariantValue α β) :=
  match shape with
  | .unit => .ok .unit
  | .named fields => (fromOptionsNamed fields options).map .named
  | .newtype inner => (inner options).map .inner

/-- The chain of name-literal match arms of the generated
`from_command_data` (first matching arm wins; `i` is the index of the
first remaining variant); the catch-all arm is
`UnknownCommand(data.name)`. -/
def commandsDispatch {α β : Type} (variants : List (CommandsVariant α β))
    (i : Nat) (name : String) (options : List CommandDataOption) :
    Except Error (Nat × VariantValue α β) :=
  match variants with
  | [] => .error (.unknownCommand name)
  | v :: rest =>
    if v.name = name then (commandsArm v.shape options).map (fun r => (i, r))
    else commandsDispatch rest (i + 1) name options

/-- `Commands::from_command_data` generated by
`src/macros/src/commands.rs` (`Args::from_command_data`): reject data
carrying an autocomplete marker, then dispatch on `data.name`. -/
def fromCommandData {α β : Type} (variants : List (CommandsVariant α β))
    (data : CommandData) : Except Error (Nat × VariantValue α β) :=
  if findFocusedList data.options then .error .unexpectedAutocompleteOption
  else commandsDispatch variants 0 data.name data.options

/-- The shape of one variant of a `#[derive(Command)]` or
`#[derive(SubCommandGroup)]` enum; a newtype variant delegates to the
inner type's `SubCommandGroup::from_value`. -/
inductive NestedVariantShape (α β : Type) where
  | unit
  | named (fields : List (FieldDecl α))
  | newtype (innerFromValue : CommandDataOptionValue → Except Error β)

/-- Match-arm body generated by `Variant::from_subcommand_group_value`
(used for the enum case of `#[derive(Command)]`, `src/macros/src/command.rs`):
the struct arm unwraps a `SubCommand` value and reports a mismatch with
`got: option.kind()` — the kind of the nested option actually provided. -/
def commandEnumArm {α β : Type} (shape : NestedVariantShape α β)
    (option : CommandDataOption) : Except Error (VariantValue α β) :=
  match shape with
  | .unit => .ok .unit
  | .named fields =>
    match option.2 with
    | .subCommand options => (fromOptionsNamed fields options).map .named
    | _ => .error (.incorrectCommandOptionType option.2.kind .subCommand)
  | .newtype inner => (inner option.2).map .inner

/-- Match-arm body generated by `Variant::from_subcommand_value` (used for
the enum case of `#[derive(SubCommandGroup)]`,
`src/macros/src/sub_command_group.rs`): as in the source, the struct arm's
mismatch error is built from `value.kind()` where `value` is the
*enclosing* `from_value` argument (the already-unwrapped sub-command-group
value), not from the mismatched nested option. -/
def subCommandGroupEnumArm {α β : Type} (outer : CommandDataOptionValue)
    (shape : NestedVariantShape α β) (option : CommandDataOption) :
    Except Error (VariantValue α β) :=
  match shape with
  | .unit => .ok .unit
  | .named fields =>
    match option.2 with
    | .subCommand options => (fromOptionsNamed fields options).map .named
    | _ => .error (.incorrectCommandOptionType outer.kind .subCommand)
  | .newtype inner => (inner option.2).map .inner

/-- Name-dispatch over the variants of a `#[derive(Command)]` enum's
generated `from_options`; catch-all is `UnknownCommandOption(option.name)`. -/
def commandEnumDispatch {α β : Type}
    (variants : List (String × NestedVariantShape α β)) (i : Nat)
    (option : CommandDataOption) : Except Error (Nat × VariantValue α β) :=
  match variants with
  | [] => .error (.unknownCommandOption option.1)
  | v :: rest =>
    if v.1 = option.1 then (commandEnumArm v.2 option).map (fun r => (i, r))
    else commandEnumDispatch rest (i + 1) option

/-- `Command::from_options` generated for an enum deriving `Command`
(`src/macros/src/command.rs`, `Args::from_options`, `Data::Enum` case):
require exactly one option, then dispatch on its name. -/
def commandFromOptionsEnum {α β : Type}
    (variants : List (String × NestedVariantShape α β))
    (options : List CommandDataOption) : Except Error (Nat × VariantValue α β) :=
  match options with
  | [option] => commandEnumDispatch variants 0 option
  | _ => .error (.incorrectCommandOptionCount options.length 1)

/-- Name-dispatch over the variants of a `#[derive(SubCommandGroup)]`
enum's generated `from_value` (arm bodies from
`Variant::from_subcommand_value`, which closes over the outer `value`). -/
def subCommandGroupDispatch {α β : Type}
    (variants : List (String × NestedVariantShape α β)) (i : Nat)
    (outer : CommandDataOptionValue) (option : CommandDataOption) :
    Except Error (Nat × VariantValue α β) :=
  match variants with
  | [] => .error (.unknownCommandOption option.1)
  | v :: rest =>
    if v.1 = option.1 then
      (subCommandGroupEnumArm outer v.2 option).map (fun r => (i, r))
    else subCommandGroupDispatch rest (i + 1) outer option

/-- `SubCommandGroup::from_value` generated by
`src/macros/src/sub_command_group.rs` (`Args::from_value`): unwrap a
`SubCommandGroup` wire value, require exactly one nested option, then
dispatch on its name. -/
def subCommandGroupFromValue {α β : Type}
    (variants : List (String × NestedVariantShape α β))
    (value : CommandDataOptionValue) : Except Error (Nat × VariantValue α β) :=
  match value with
  | .subCommandGroup options =>
    match options with
    | [option] => subCommandGroupDispatch variants 0 value option
    | _ => .error (.incorrectCommandOptionCount options.length 1)
  | _ => .error (.incorrectCommandOptionType value.kind .subCommandGroup)

/-! ## Choice enums (`src/macros/src/basic_option.rs`, integer
`option_type`) -/

/-- The chain of choice-literal match arms generated from
`ChoiceVariant::from_value` for an integer-typed choice enum (first
matching arm wins); the catch-all arm is `UnknownChoice` carrying the
decimal string form of the wire value. -/
def choiceDispatchInt {α : Type} (choices : List (Int × α)) (choice : Int) :
    Except Error α :=
  match choices with
  | [] => .error (.unknownChoice (toString choice))
  | c :: rest => if c.1 = choice then .ok c.2 else choiceDispatchInt rest choice

/-- `BasicOption::from_value` generated for a unit-variant enum deriving
`BasicOption` with `option_type = "integer"` (`Args::from_value`,
`Data::Enum` case). -/
def choiceFromValueInt {α : Type} (choices : List (Int × α))
    (value : Option CommandDataOptionValue) : Except Error α :=
  match value with
  | none => .error .missingRequiredCommandOption
  | some (.integer choice) => choiceDispatchInt choices choice
  | some v => .error (.incorrectCommandOptionType v.kind .integer)

/-- The example choice enum from the spec scenario (`Medal`,
`option_type = integer`, `Gold = 1`, `Silver = 2`, `Bronze = 3`). -/
inductive Medal where
  | gold
  | silver
  | bronze
deriving DecidableEq, Repr

/-! ## Documentation descriptions (`src/macros/src/utils.rs`,
`documentation_string`) -/

/-- An attribute on a declaration, as the macro filters them: either one
documentation-comment line (`#[doc = "..."]`) or anything else. -/
inductive Attr where
  | doc (s : String)
  | other
deriving DecidableEq, Repr

/-- The documentation-comment lines of an attribute list, in order. -/
def docLines (attrs : List Attr) : List String :=
  attrs.filterMap (fun a => match a with | .doc s => some s | .other => none)

/-- Rust's `str::trim`: strip whitespace from both ends (for the ASCII
whitespace appearing in documentation comments). -/
def rustTrim (s : String) : String :=
  ⟨((s.data.dropWhile Char.isWhitespace).reverse.dropWhile
      Char.isWhitespace).reverse⟩

/-- `documentation_string`: with no documentation line, push a
macro-expansion error (the accumulator makes the build fail — modelled as
`Except.error` carrying the diagnostic text); otherwise fold the lines,
pushing a separating space only when the accumulated text is nonempty and
then the trimmed line. -/
def documentationString (attrs : List Attr) : Except String String :=
  let docs := docLines attrs
  if docs.isEmpty then
    .error "missing documentation comment (///) to use as description"
  else
    .ok (docs.foldl
      (fun acc s => (if acc.isEmpty then acc else acc ++ " ") ++ rustTrim s) "")

/-- Modelled from the spec's words for comparison ("concatenation of
consecutive documentation lines, trimmed and space-joined"): each line
trimmed, the trimmed lines joined by single spaces. -/
def docJoinSpec (attrs : List Attr) : String :=
  String.intercalate " " ((docLines attrs).map rustTrim)

/-- Recursive characterisation of the source's fold: leading lines that
trim to empty contribute nothing; from the first line with nonempty trim
on, the trimmed lines are joined by single spaces. -/
def docFoldSpec : List String → String
  | [] => ""
  | s :: rest =>
    if rustTrim s = "" then docFoldSpec rest else rustTrim s ++ docTail rest
where
  /-- Join a list of lines as `" " ++ trimmed line` each. -/
  docTail : List String → String
    | [] => ""
    | s :: rest => " " ++ rustTrim s ++ docTail rest

/-! ## Theorems -/

/-- Claim C2: for every `BasicOption` type `T` (its `from_value` abstracted
as `tFrom`, its `T::Partial::from_value` as `pFrom`) and every option-value
input: if `tFrom` succeeds with `v`, `PartialOption::<T>::from_value`
returns `Ok(Value v)`; if `tFrom` fails with `e` but `pFrom` succeeds with
`p`, it returns `Ok(Partial(p, e))` instead of propagating the error. -/
theorem partialOption_fromValue_spec {α π : Type}
    (tFrom : Option CommandDataOptionValue → Except Error α)
    (pFrom : Option CommandDataOptionValue → Except Error π)
    (value : Option CommandDataOptionValue) :
    (∀ v, tFrom value = .ok v →
      partialOptionFromValue tFrom pFrom value = .ok (.Value v))
    ∧ (∀ e p, tFrom value = .error e → pFrom value = .ok p →
      partialOptionFromValue tFrom pFrom value = .ok (.Partial p e)) := by
  constructor
  · intro v hv
    simp [partialOptionFromValue, hv]
  · intro e p he hp
    simp [partialOptionFromValue, he, hp]

/-- Witness for C2 at `T = char` (whose `Partial` is `String`): the
two-character string fails `char` parsing but partially parses as the
string itself, paired with the error. -/
theorem partialOption_fromValue_spec_witness :
    partialOptionFromValue charFromValue stringFromValue
        (some (.string "ab"))
      = .ok (.Partial "ab" (.custom "expected single character")) :=
  (partialOption_fromValue_spec charFromValue stringFromValue
    (some (.string "ab"))).2 (.custom "expected single character") "ab" rfl rfl

/-- Claim C6: for every `BasicOption` type `T` (abstracted as `tFrom`),
parsing a field of type `Option<T>`: an absent entry (`value` is `None`)
succeeds with `None`; a present entry accepted by `T::from_value` with `v`
yields `Some(v)`. -/
theorem option_fromValue_spec {α : Type}
    (tFrom : Option CommandDataOptionValue → Except Error α) :
    optionFromValue tFrom none = .ok none
    ∧ (∀ v x, tFrom (some v) = .ok x →
      optionFromValue tFrom (some v) = .ok (some x)) := by
  constructor
  · rfl
  · intro v x hx
    simp [optionFromValue, hx]

/-- Witness for C6 at `T = String`. -/
theorem option_fromValue_spec_witness :
    optionFromValue stringFromValue none = .ok none
    ∧ optionFromValue stringFromValue (some (.string "hi")) = .ok (some "hi") :=
  ⟨(option_fromValue_spec stringFromValue).1,
   (option_fromValue_spec stringFromValue).2 (.string "hi") "hi" rfl⟩

/-- Claim C10: for every fixed-width integer target (width `w`, signedness
flag) and every wire `Integer` value `v`, the built-in `from_value` always
succeeds, returning the truncating two's-complement cast of `v`: a value
congruent to `v` modulo `2 ^ w`, lying in `[0, 2 ^ w)` for an unsigned
target and in `[-2 ^ (w - 1), 2 ^ (w - 1))` for a signed one; out-of-range
wire integers are silently wrapped, never rejected. -/
theorem intFromValue_wrap (w : Nat) (signed : Bool) (v : Int) (hw : 0 < w) :
    intFromValue w signed (some (.integer v)) = .ok (castI64 w signed v)
    ∧ castI64 w signed v % 2 ^ w = v % 2 ^ w
    ∧ (signed = false →
        0 ≤ castI64 w signed v ∧ castI64 w signed v < 2 ^ w)
    ∧ (signed = true →
        -(2 ^ (w - 1)) ≤ castI64 w signed v
          ∧ castI64 w signed v < 2 ^ (w - 1)) := by
  have hpow : (0 : Int) < 2 ^ w := by positivity
  have hhalf : (0 : Int) < 2 ^ (w - 1) := by positivity
  have hsplit : (2 : Int) ^ w = 2 ^ (w - 1) * 2 := by
    rw [← pow_succ]
    congr 1
    omega
  have hr0 : 0 ≤ v % 2 ^ w := Int.emod_nonneg v (ne_of_gt hpow)
  have hrlt : v % 2 ^ w < 2 ^ w := Int.emod_lt_of_pos v hpow
  have hmm : v % 2 ^ w % 2 ^ w = v % 2 ^ w :=
    Int.emod_emod_of_dvd v dvd_rfl
  cases signed with
  | false =>
    refine ⟨rfl, ?_, fun _ => ?_, fun h => absurd h (by decide)⟩
    · simp [castI64, hmm]
    · simp only [castI64]
      simp only [Bool.false_eq_true, false_and, if_false]
      exact ⟨hr0, hrlt⟩
  | true =>
    by_cases hc : (2 : Int) ^ (w - 1) ≤ v % 2 ^ w
    · refine ⟨rfl, ?_, fun h => absurd h (by decide), fun _ => ?_⟩
      · simp only [castI64, true_and, if_pos hc]
        simp [Int.sub_emod, hmm]
      · simp only [castI64, true_and, if_pos hc]
        constructor <;> omega
    · refine ⟨rfl, ?_, fun h => absurd h (by decide), fun _ => ?_⟩
      · simp only [castI64, true_and, if_neg hc]
        exact hmm
      · simp only [castI64, true_and, if_neg hc]
        constructor <;> omega

/-- Witness for C10 at `u8` (`w = 8`, unsigned) and wire value `300`:
silently wrapped to `44 = 300 mod 256`. -/
theorem intFromValue_wrap_witness :
    intFromValue 8 false (some (.integer 300)) = .ok 44
    ∧ (44 : Int) % 2 ^ 8 = 300 % 2 ^ 8 := by
  constructor
  · rw [(intFromValue_wrap 8 false 300 (by decide)).1]
    decide
  · decide

/-- Claim C3: the generated `SubCommandGroup::from_value` of an enum
deriving the sub-command-group role requires the wrapped nested-option
list to hold exactly one entry — any other length `n` is
`IncorrectCommandOptionCount { got: n, expected: 1 }`, and only a
singleton proceeds to the name dispatch; the same exactly-one rule holds
for the generated `from_options` of an enum deriving the command role. -/
theorem exactlyOne_nested_option_required {α β : Type}
    (variants : List (String × NestedVariantShape α β))
    (opts opts2 : List CommandDataOption)
    (h : opts.length ≠ 1) (h2 : opts2.length ≠ 1) :
    subCommandGroupFromValue variants (.subCommandGroup opts)
        = .error (.incorrectCommandOptionCount opts.length 1)
    ∧ commandFromOptionsEnum variants opts2
        = .error (.incorrectCommandOptionCount opts2.length 1)
    ∧ (∀ o, subCommandGroupFromValue variants (.subCommandGroup [o])
        = subCommandGroupDispatch variants 0 (.subCommandGroup [o]) o)
    ∧ (∀ o, commandFromOptionsEnum variants [o]
        = commandEnumDispatch variants 0 o) := by
  refine ⟨?_, ?_, fun o => rfl, fun o => rfl⟩
  · cases opts with
    | nil => rfl
    | cons a t =>
      cases t with
      | nil => exact absurd rfl h
      | cons b r => rfl
  · cases opts2 with
    | nil => rfl
    | cons a t =>
      cases t with
      | nil => exact absurd rfl h2
      | cons b r => rfl

/-- Witness for C3 with an empty and a two-element option list. -/
theorem exactlyOne_nested_option_required_witness :
    subCommandGroupFromValue
        ([] : List (String × NestedVariantShape String Unit))
        (.subCommandGroup [])
      = .error (.incorrectCommandOptionCount 0 1)
    ∧ commandFromOptionsEnum
        ([] : List (String × NestedVariantShape String Unit))
        [("a", .integer 1), ("b", .integer 2)]
      = .error (.incorrectCommandOptionCount 2 1) := by
  have h := exactlyOne_nested_option_required
    ([] : List (String × NestedVariantShape String Unit)) []
    [("a", .integer 1), ("b", .integer 2)] (by decide) (by decide)
  exact ⟨h.1, h.2.1⟩

/-- The choice-arm chain hits the first arm whose literal equals the wire
value. -/
theorem choiceDispatchInt_get {α : Type} :
    ∀ (choices : List (Int × α)) (n : Int) (i : Nat) (hi : i < choices.length),
      (choices.get ⟨i, hi⟩).1 = n →
      n ∉ (choices.take i).map (·.1) →
      choiceDispatchInt choices n = .ok (choices.get ⟨i, hi⟩).2 := by
  intro choices
  induction choices with
  | nil =>
    intro n i hi
    exact absurd hi (by simp)
  | cons c rest ih =>
    intro n i hi hget htake
    cases i with
    | zero =>
      simp only [List.get] at hget ⊢
      unfold choiceDispatchInt
      rw [if_pos hget]
    | succ i =>
      have hcne : c.1 ≠ n := by
        intro hcn
        exact htake (by simp [List.take_succ_cons, hcn])
      unfold choiceDispatchInt
      rw [if_neg hcne]
      exact ih n i (by simpa using Nat.lt_of_succ_lt_succ hi) hget
        (fun hmem => htake (by simp [List.take_succ_cons]; right; simpa using hmem))

/-- The choice-arm chain falls to the catch-all when no literal matches. -/
theorem choiceDispatchInt_notMem {α : Type} :
    ∀ (choices : List (Int × α)) (n : Int), n ∉ choices.map (·.1) →
      choiceDispatchInt choices n = .error (.unknownChoice (toString n)) := by
  intro choices
  induction choices with
  | nil => intro n _; rfl
  | cons c rest ih =>
    intro n hn
    have hcne : c.1 ≠ n := fun h => hn (by simp [h])
    unfold choiceDispatchInt
    rw [if_neg hcne]
    exact ih n (fun hmem => hn (by simp; right; simpa using hmem))

/-- Claim C7: for every unit-variant enum deriving the primitive/choice
option role with integer `option_type`, the generated `from_value` maps a
wire `Integer` equal to a declared choice value to that variant (the first
such arm when values repeat), and maps a wire `Integer` equal to no
declared value to `UnknownChoice` carrying its decimal string form. -/
theorem choice_enum_fromValue {α : Type} (choices : List (Int × α)) (n : Int) :
    (∀ (i : Nat) (hi : i < choices.length),
      (choices.get ⟨i, hi⟩).1 = n →
      n ∉ (choices.take i).map (·.1) →
      choiceFromValueInt choices (some (.integer n))
        = .ok (choices.get ⟨i, hi⟩).2)
    ∧ (n ∉ choices.map (·.1) →
      choiceFromValueInt choices (some (.integer n))
        = .error (.unknownChoice (toString n))) := by
  constructor
  · intro i hi hget htake
    exact choiceDispatchInt_get choices n i hi hget htake
  · intro hn
    exact choiceDispatchInt_notMem choices n hn

/-- Witness for C7 on the spec's `Medal` scenario: wire `2` parses to
`Silver`, wire `4` is an unknown choice. -/
theorem choice_enum_fromValue_witness :
    choiceFromValueInt [(1, Medal.gold), (2, .silver), (3, .bronze)]
        (some (.integer 2)) = .ok Medal.silver
    ∧ choiceFromValueInt [(1, Medal.gold), (2, .silver), (3, .bronze)]
        (some (.integer 4)) = .error (.unknownChoice "4") := by
  constructor
  · exact (choice_enum_fromValue [(1, Medal.gold), (2, .silver), (3, .bronze)]
      2).1 1 (by decide) rfl (by decide)
  · have h := (choice_enum_fromValue
      [(1, Medal.gold), (2, .silver), (3, .bronze)] 4).2 (by decide)
    rw [h]
    decide

/-- A match-arm index exists exactly for names among the declared field
names. -/
theorem slotIdx_isSome_iff (names : List String) (a : String) :
    (slotIdx names a).isSome = true ↔ a ∈ names := by
  induction names with
  | nil => simp [slotIdx]
  | cons n rest ih =>
    by_cases h : n = a
    · simp [slotIdx, h]
    · simp only [slotIdx, if_neg h]
      have hmap : (Option.map (· + 1) (slotIdx rest a)).isSome
          = (slotIdx rest a).isSome := by
        cases slotIdx rest a <;> rfl
      rw [hmap, ih, List.mem_cons]
      constructor
      · exact fun hm => Or.inr hm
      · rintro (hm | hm)
        · exact absurd hm.symm h
        · exact hm

/-- Two names assigned the same accumulator slot are equal. -/
theorem slotIdx_inj (names : List String) :
    ∀ (a b : String) (i : Nat),
      slotIdx names a = some i → slotIdx names b = some i → a = b := by
  induction names with
  | nil =>
    intro a b i ha
    simp [slotIdx] at ha
  | cons n rest ih =>
    intro a b i ha hb
    by_cases hna : n = a <;> by_cases hnb : n = b
    · rw [← hna, ← hnb]
    · simp only [slotIdx, if_pos hna, if_neg hnb, Option.some.injEq] at ha hb
      obtain ⟨j, _, hj⟩ := Option.map_eq_some'.mp hb
      omega
    · simp only [slotIdx, if_neg hna, if_pos hnb, Option.some.injEq] at ha hb
      obtain ⟨j, _, hj⟩ := Option.map_eq_some'.mp ha
      omega
    · simp only [slotIdx, if_neg hna, if_neg hnb] at ha hb
      obtain ⟨j, hja, hj⟩ := Option.map_eq_some'.mp ha
      obtain ⟨j2, hjb, hj2⟩ := Option.map_eq_some'.mp hb
      have : j = j2 := by omega
      exact ih a b j hja (this ▸ hjb)

/-- A failed accumulator absorbs the rest of the fold. -/
theorem foldl_foldStep_error (names : List String) :
    ∀ (l : List CommandDataOption) (e : Error),
      l.foldl (foldStep names) (.error e) = .error e := by
  intro l
  induction l with
  | nil => intro e; rfl
  | cons x rest ih => intro e; exact ih e

/-- Two fold steps on entries with distinct known names commute. -/
theorem foldStep_comm (names : List String) (x y : CommandDataOption)
    (hx : (slotIdx names x.1).isSome = true)
    (hy : (slotIdx names y.1).isSome = true) (hxy : x.1 ≠ y.1)
    (init : Except Error (List (Option CommandDataOptionValue))) :
    foldStep names (foldStep names init y) x
      = foldStep names (foldStep names init x) y := by
  cases init with
  | error e => rfl
  | ok slots =>
    obtain ⟨i, hi⟩ := Option.isSome_iff_exists.mp hx
    obtain ⟨j, hj⟩ := Option.isSome_iff_exists.mp hy
    have hij : i ≠ j := fun h => hxy (slotIdx_inj names x.1 y.1 i hi (h ▸ hj))
    simp only [foldStep, hi, hj]
    rw [List.set_comm _ _ _ (Ne.symm hij)]

/-- The fold is invariant under permutations of the input whenever every
entry name has a slot and the entry names are pairwise distinct. -/
theorem foldl_foldStep_perm (names : List String)
    {l1 l2 : List CommandDataOption} (hp : l1.Perm l2) :
    (∀ o ∈ l1, (slotIdx names o.1).isSome = true) →
    (l1.map (·.1)).Nodup →
    ∀ init, l1.foldl (foldStep names) init = l2.foldl (foldStep names) init := by
  induction hp with
  | nil =>
    intro _ _ init
    rfl
  | cons x p ih =>
    intro hk hnd init
    simp only [List.foldl_cons]
    refine ih (fun o ho => hk o (List.mem_cons_of_mem _ ho)) ?_ _
    exact (List.nodup_cons.mp (by simpa using hnd)).2
  | swap x y l =>
    intro hk hnd init
    simp only [List.foldl_cons]
    have hx : (slotIdx names x.1).isSome = true := hk x (by simp)
    have hy : (slotIdx names y.1).isSome = true := hk y (by simp)
    have hne : y.1 ≠ x.1 := by
      simp only [List.map_cons, List.nodup_cons, List.mem_cons] at hnd
      exact fun h => hnd.1 (Or.inl h)
    rw [foldStep_comm names y x hy hx hne init]
  | trans p1 p2 ih1 ih2 =>
    intro hk hnd init
    rw [ih1 hk hnd init,
      ih2 (fun o ho => hk o (p1.mem_iff.mpr ho))
        ((p1.map (·.1)).nodup_iff.mp hnd) init]

/-- When every entry name has a slot, the fold succeeds. -/
theorem foldl_foldStep_ok (names : List String) :
    ∀ (l : List CommandDataOption),
      (∀ o ∈ l, (slotIdx names o.1).isSome = true) →
      ∀ slots, ∃ out, l.foldl (foldStep names) (.ok slots) = .ok out := by
  intro l
  induction l with
  | nil => exact fun _ slots => ⟨slots, rfl⟩
  | cons x rest ih =>
    intro hk slots
    obtain ⟨i, hi⟩ := Option.isSome_iff_exists.mp (hk x (by simp))
    simp only [List.foldl_cons, foldStep, hi]
    exact ih (fun o ho => hk o (by simp [ho])) _

/-- An entry whose name has no slot makes the fold fail. -/
theorem foldl_foldStep_unknown (names : List String) :
    ∀ (l : List CommandDataOption) (o : CommandDataOption), o ∈ l →
      slotIdx names o.1 = none →
      ∀ init, ∃ e, l.foldl (foldStep names) init = .error e := by
  intro l
  induction l with
  | nil =>
    intro o ho
    exact absurd ho (by simp)
  | cons x rest ih =>
    intro o ho hn init
    rcases List.mem_cons.mp ho with hox | hor
    · have hstep : ∃ e2, foldStep names init x = .error e2 := by
        cases init with
        | error e => exact ⟨e, rfl⟩
        | ok slots =>
          subst hox
          simp [foldStep, hn]
      obtain ⟨e2, he2⟩ := hstep
      refine ⟨e2, ?_⟩
      simp only [List.foldl_cons, he2]
      exact foldl_foldStep_error names rest e2
    · simp only [List.foldl_cons]
      exact ih o hor hn _

/-- Claim C5 (amended): for a named-field shape and an input list with
pairwise-distinct entry names, the generated `from_options` matches
entries to slots by name only, so the parse result is invariant under
permutation of the input whenever every entry name is a declared field
name; in general, whether the parse succeeds is permutation-invariant
(when some entry name is undeclared both orders fail, though the
first-encountered unknown name — and hence the reported error — may
depend on the order). -/
theorem named_fields_order_invariant {α : Type} (fields : List (FieldDecl α))
    (options options2 : List CommandDataOption)
    (hperm : options.Perm options2)
    (hnd : (options.map (·.1)).Nodup) :
    ((∀ o ∈ options, o.1 ∈ fields.map (·.name)) →
      fromOptionsNamed fields options = fromOptionsNamed fields options2)
    ∧ exceptIsOk (fromOptionsNamed fields options)
        = exceptIsOk (fromOptionsNamed fields options2) := by
  have hfold : (∀ o ∈ options, o.1 ∈ fields.map (·.name)) →
      foldOptions (fields.map (·.name)) options
        = foldOptions (fields.map (·.name)) options2 := by
    intro hall
    exact foldl_foldStep_perm (fields.map (·.name)) hperm
      (fun o ho => (slotIdx_isSome_iff _ _).mpr (hall o ho)) hnd _
  constructor
  · intro hall
    unfold fromOptionsNamed
    rw [hfold hall]
  · by_cases hall : ∀ o ∈ options, o.1 ∈ fields.map (·.name)
    · unfold fromOptionsNamed
      rw [hfold hall]
    · push_neg at hall
      obtain ⟨o, ho, hon⟩ := hall
      have hnone : slotIdx (fields.map (·.name)) o.1 = none := by
        cases hcase : slotIdx (fields.map (·.name)) o.1 with
        | none => rfl
        | some i =>
          exact absurd ((slotIdx_isSome_iff _ _).mp (by simp [hcase])) hon
      obtain ⟨e1, he1⟩ := foldl_foldStep_unknown (fields.map (·.name))
        options o ho hnone (.ok (List.replicate (fields.map (·.name)).length none))
      obtain ⟨e2, he2⟩ := foldl_foldStep_unknown (fields.map (·.name))
        options2 o (hperm.mem_iff.mp ho) hnone
        (.ok (List.replicate (fields.map (·.name)).length none))
      unfold fromOptionsNamed foldOptions
      rw [he1, he2]
      rfl

/-- Counterexample to C5 as stated: with the single declared field `a`,
the distinct-named inputs `[x, y]` and `[y, x]` are permutations of each
other yet parse to different results (different unknown-option errors). -/
theorem named_fields_order_invariant_counterexample :
    fromOptionsNamed ([⟨"a", stringFromValue⟩] : List (FieldDecl String))
        [("x", .string "u"), ("y", .string "v")]
      = .error (.unknownCommandOption "x")
    ∧ fromOptionsNamed ([⟨"a", stringFromValue⟩] : List (FieldDecl String))
        [("y", .string "v"), ("x", .string "u")]
      = .error (.unknownCommandOption "y")
    ∧ List.Perm [("x", CommandDataOptionValue.string "u"), ("y", .string "v")]
        [("y", CommandDataOptionValue.string "v"), ("x", .string "u")]
    ∧ ([("x", CommandDataOptionValue.string "u"),
        ("y", .string "v")].map (fun o => o.1)).Nodup
    ∧ fromOptionsNamed ([⟨"a", stringFromValue⟩] : List (FieldDecl String))
        [("x", .string "u"), ("y", .string "v")]
      ≠ fromOptionsNamed ([⟨"a", stringFromValue⟩] : List (FieldDecl String))
        [("y", .string "v"), ("x", .string "u")] := by
  refine ⟨rfl, rfl, ?_, by decide, by decide⟩
  exact List.Perm.swap ("y", CommandDataOptionValue.string "v")
    ("x", CommandDataOptionValue.string "u") []

/-- Witness for C5 (amended): both orders of two declared fields parse to
the same values, and the success test agrees. -/
theorem named_fields_order_invariant_witness :
    fromOptionsNamed
        ([⟨"a", stringFromValue⟩, ⟨"b", stringFromValue⟩] :
          List (FieldDecl String))
        [("a", .string "1"), ("b", .string "2")]
      = fromOptionsNamed
        ([⟨"a", stringFromValue⟩, ⟨"b", stringFromValue⟩] :
          List (FieldDecl String))
        [("b", .string "2"), ("a", .string "1")]
    ∧ fromOptionsNamed
        ([⟨"a", stringFromValue⟩, ⟨"b", stringFromValue⟩] :
          List (FieldDecl String))
        [("a", .string "1"), ("b", .string "2")]
      = .ok ["1", "2"] := by
  constructor
  · exact (named_fields_order_invariant
      [⟨"a", stringFromValue⟩, ⟨"b", stringFromValue⟩]
      [("a", .string "1"), ("b", .string "2")]
      [("b", .string "2"), ("a", .string "1")]
      (List.Perm.swap ("b", CommandDataOptionValue.string "2")
        ("a", CommandDataOptionValue.string "1") [])
      (by decide)).1 (by decide)
  · decide

/-- When no autocomplete-flagged field bears the name, the generated
autocomplete arm chain has no matching arm. -/
theorem findFlagged_none {α : Type} :
    ∀ (fields : List (AutoFieldDecl α)) (name : String),
      (∀ f ∈ fields, f.flagged = true → f.name ≠ name) →
      ∀ i, findFlagged fields i name = none := by
  intro fields
  induction fields with
  | nil =>
    intro name _ i
    rfl
  | cons f rest ih =>
    intro name hf i
    unfold findFlagged
    rw [if_neg]
    · exact ih name (fun g hg => hf g (List.mem_cons_of_mem _ hg)) (i + 1)
    · rintro ⟨hfl, hname⟩
      exact hf f (by simp) hfl hname

/-- Claim C9 (amended): for a named-field shape with autocomplete-flagged
fields, provided every input entry's name is a declared field name (the
preceding name-matching fold otherwise fails first with
`UnknownCommandOption`), the generated autocomplete parser scans for the
entry carrying the autocomplete marker and dispatches by its name: a
marked entry naming no autocomplete-flagged field yields
`UnknownAutocompleteOption` with that name, and the absence of any marked
entry yields `MissingAutocompleteOption`. -/
theorem autocomplete_scan_dispatch {α : Type} (fields : List (AutoFieldDecl α))
    (options : List CommandDataOption)
    (hknown : ∀ o ∈ options, o.1 ∈ fields.map (·.name)) :
    (∀ o, options.find? (fun o => o.2.isAutocompleteMarked) = some o →
      (∀ f ∈ fields, f.flagged = true → f.name ≠ o.1) →
      fromAutocompleteOptionsNamed fields options
        = .error (.unknownAutocompleteOption o.1))
    ∧ ((∀ o ∈ options, o.2.isAutocompleteMarked = false) →
      fromAutocompleteOptionsNamed fields options
        = .error .missingAutocompleteOption) := by
  obtain ⟨slots, hs⟩ := foldl_foldStep_ok (fields.map (·.name)) options
    (fun o ho => (slotIdx_isSome_iff _ _).mpr (hknown o ho))
    (List.replicate (fields.map (·.name)).length none)
  have hfold : foldOptions (fields.map (·.name)) options = .ok slots := hs
  constructor
  · intro o hfind hflag
    unfold fromAutocompleteOptionsNamed
    simp only [hfold, hfind, findFlagged_none fields o.1 hflag 0]
  · intro hnone
    have hfind : List.find? (fun o : CommandDataOption => o.2.isAutocompleteMarked)
        options = none :=
      List.find?_eq_none.mpr (fun x hx => by rw [hnone x hx]; exact Bool.false_ne_true)
    unfold fromAutocompleteOptionsNamed
    simp only [hfold, hfind]

/-- Counterexample to C9 as stated: the marked entry is named `zzz`,
which matches no autocomplete-flagged field, yet the parser reports
`UnknownCommandOption` (the fold over declared field names runs first),
not `UnknownAutocompleteOption`. -/
theorem autocomplete_scan_dispatch_counterexample :
    fromAutocompleteOptionsNamed
        ([⟨"a", true, stringFromValue⟩] : List (AutoFieldDecl String))
        [("zzz", .autocomplete .string "x")]
      = .error (.unknownCommandOption "zzz")
    ∧ fromAutocompleteOptionsNamed
        ([⟨"a", true, stringFromValue⟩] : List (AutoFieldDecl String))
        [("zzz", .autocomplete .string "x")]
      ≠ .error (.unknownAutocompleteOption "zzz") :=
  ⟨rfl, by decide⟩

/-- Witness for C9 (amended): with flagged field `a` and unflagged field
`b`, a marked entry named `b` is an unknown autocomplete option, and an
unmarked input is a missing autocomplete option. -/
theorem autocomplete_scan_dispatch_witness :
    fromAutocompleteOptionsNamed
        ([⟨"a", true, stringFromValue⟩, ⟨"b", false, stringFromValue⟩] :
          List (AutoFieldDecl String))
        [("b", .autocomplete .string "x")]
      = .error (.unknownAutocompleteOption "b")
    ∧ fromAutocompleteOptionsNamed
        ([⟨"a", true, stringFromValue⟩, ⟨"b", false, stringFromValue⟩] :
          List (AutoFieldDecl String))
        [("b", .string "x")]
      = .error .missingAutocompleteOption := by
  constructor
  · exact (autocomplete_scan_dispatch
      [⟨"a", true, stringFromValue⟩, ⟨"b", false, stringFromValue⟩]
      [("b", .autocomplete .string "x")] (by decide)).1
      ("b", .autocomplete .string "x") rfl (by decide)
  · exact (autocomplete_scan_dispatch
      [⟨"a", true, stringFromValue⟩, ⟨"b", false, stringFromValue⟩]
      [("b", .string "x")] (by decide)).2 (by decide)

/-- The name-literal arm chain of `from_command_data` runs the arm of the
first variant whose name matches. -/
theorem commandsDispatch_known {α β : Type} :
    ∀ (variants : List (CommandsVariant α β)) (k i : Nat)
      (hi : i < variants.length) (name : String)
      (options : List CommandDataOption),
      (variants.get ⟨i, hi⟩).name = name →
      name ∉ (variants.take i).map (·.name) →
      commandsDispatch variants k name options
        = (commandsArm (variants.get ⟨i, hi⟩).shape options).map
            (fun r => (k + i, r)) := by
  intro variants
  induction variants with
  | nil =>
    intro k i hi
    exact absurd hi (by simp)
  | cons v rest ih =>
    intro k i hi name options hget htake
    cases i with
    | zero =>
      simp only [List.get] at hget ⊢
      unfold commandsDispatch
      rw [if_pos hget]
      simp
    | succ i =>
      have hvne : v.name ≠ name := by
        intro hvn
        exact htake (by simp [List.take_succ_cons, hvn])
      unfold commandsDispatch
      rw [if_neg hvne]
      have hrec := ih (k + 1) i (by simpa using Nat.lt_of_succ_lt_succ hi)
        name options hget
        (fun hmem => htake (by simp [List.take_succ_cons]; right; simpa using hmem))
      rw [hrec, show k + 1 + i = k + (i + 1) from by omega]
      rfl

/-- The name-literal arm chain falls to the catch-all when no variant's
name matches. -/
theorem commandsDispatch_unknown {α β : Type} :
    ∀ (variants : List (CommandsVariant α β)) (k : Nat) (name : String)
      (options : List CommandDataOption),
      name ∉ variants.map (·.name) →
      commandsDispatch variants k name options
        = .error (.unknownCommand name) := by
  intro variants
  induction variants with
  | nil =>
    intro k name options _
    rfl
  | cons v rest ih =>
    intro k name options hn
    have hvne : v.name ≠ name := fun h => hn (by simp [h])
    unfold commandsDispatch
    rw [if_neg hvne]
    exact ih (k + 1) name options (fun hmem => hn (by simp; right; simpa using hmem))

/-- Claim C1 (amended): for every enum deriving the command-list role and
every input carrying no autocomplete marker, the generated
`from_command_data` dispatches by top-level name exhaustively and
exclusively: a name equal to a declared variant's resolved (kebab-cased or
overridden) name — the first such variant when names collide — parses per
that variant's shape to that variant, and a name matching no variant
yields `UnknownCommand` with that name.  (An input that does carry the
marker is instead rejected up front with `UnexpectedAutocompleteOption`.) -/
theorem commands_dispatch_by_name {α β : Type}
    (variants : List (CommandsVariant α β)) (data : CommandData)
    (hac : findFocusedList data.options = false) :
    (∀ (i : Nat) (hi : i < variants.length),
      data.name = (variants.get ⟨i, hi⟩).name →
      data.name ∉ (variants.take i).map (·.name) →
      fromCommandData variants data
        = (commandsArm (variants.get ⟨i, hi⟩).shape data.options).map
            (fun r => (i, r)))
    ∧ (data.name ∉ variants.map (·.name) →
      fromCommandData variants data = .error (.unknownCommand data.name)) := by
  constructor
  · intro i hi hname htake
    unfold fromCommandData
    rw [hac]
    simp only [Bool.false_eq_true, if_false]
    have h := commandsDispatch_known variants 0 i hi data.name data.options
      hname.symm htake
    rw [h]
    simp
  · intro hn
    unfold fromCommandData
    rw [hac]
    simp only [Bool.false_eq_true, if_false]
    exact commandsDispatch_unknown variants 0 data.name data.options hn

/-- Counterexample to C1 as stated: the input is named `ping`, equal to
the unit variant `Ping`'s kebab-cased name, yet because one of its options
carries the autocomplete marker the result is
`UnexpectedAutocompleteOption`, not the `Ping` variant. -/
theorem commands_dispatch_by_name_counterexample :
    fromCommandData
        ([⟨"ping", .unit⟩, ⟨"echo", .named [⟨"message", stringFromValue⟩]⟩] :
          List (CommandsVariant String Unit))
        ⟨"ping", [("message", .autocomplete .string "h")]⟩
      = .error .unexpectedAutocompleteOption
    ∧ fromCommandData
        ([⟨"ping", .unit⟩, ⟨"echo", .named [⟨"message", stringFromValue⟩]⟩] :
          List (CommandsVariant String Unit))
        ⟨"ping", [("message", .autocomplete .string "h")]⟩
      ≠ .ok (0, .unit) := by
  have h : fromCommandData
      ([⟨"ping", .unit⟩, ⟨"echo", .named [⟨"message", stringFromValue⟩]⟩] :
        List (CommandsVariant String Unit))
      ⟨"ping", [("message", .autocomplete .string "h")]⟩
      = .error .unexpectedAutocompleteOption := by
    simp [fromCommandData, findFocusedList]
  refine ⟨h, ?_⟩
  rw [h]
  decide

/-- Witness for C1 (amended) on the spec's scenario: `Ping` (unit) and
`Echo { message: String }`; parsing `{name: "echo",
options: [{name: "message", value: "hi"}]}` yields the `Echo` variant with
`message = "hi"`, and `{name: "bogus"}` is an unknown command. -/
theorem commands_dispatch_by_name_witness :
    fromCommandData
        ([⟨"ping", .unit⟩, ⟨"echo", .named [⟨"message", stringFromValue⟩]⟩] :
          List (CommandsVariant String Unit))
        ⟨"echo", [("message", .string "hi")]⟩
      = .ok (1, .named ["hi"])
    ∧ fromCommandData
        ([⟨"ping", .unit⟩, ⟨"echo", .named [⟨"message", stringFromValue⟩]⟩] :
          List (CommandsVariant String Unit))
        ⟨"bogus", []⟩
      = .error (.unknownCommand "bogus") := by
  constructor
  · have h := (commands_dispatch_by_name
      ([⟨"ping", .unit⟩, ⟨"echo", .named [⟨"message", stringFromValue⟩]⟩] :
        List (CommandsVariant String Unit))
      ⟨"echo", [("message", .string "hi")]⟩
      (by simp [findFocusedList])).1 1 (by decide) rfl (by decide)
    rw [h]
    decide
  · exact (commands_dispatch_by_name
      ([⟨"ping", .unit⟩, ⟨"echo", .named [⟨"message", stringFromValue⟩]⟩] :
        List (CommandsVariant String Unit))
      ⟨"bogus", []⟩ (by simp [findFocusedList])).2 (by decide)

/-- Claim C4, evaluated at a failing input: inside a sub-command-group
enum's generated `from_value`, the struct-variant arm for `add` receives a
nested option of wire kind `Integer`, yet the wrong-kind error reports
`got = SubCommandGroup` — the kind of the outer, already-matched value
that `got: value.kind()` closes over — rather than the `Integer` kind of
the mismatched option the claim (and the sibling
`from_subcommand_group_value` arm, which uses `option.kind()`) prescribes. -/
theorem subCommandGroup_wrongKind_reports_outer :
    subCommandGroupFromValue
        ([("add", .named [])] : List (String × NestedVariantShape String Unit))
        (.subCommandGroup [("add", .integer 5)])
      = .error (.incorrectCommandOptionType .subCommandGroup .subCommand)
    ∧ CommandDataOptionValue.kind (.integer 5) = .integer
    ∧ Error.incorrectCommandOptionType .subCommandGroup .subCommand
        ≠ .incorrectCommandOptionType .integer .subCommand
    ∧ commandFromOptionsEnum
        ([("add", .named [])] : List (String × NestedVariantShape String Unit))
        [("add", .integer 5)]
      = .error (.incorrectCommandOptionType .integer .subCommand) :=
  ⟨rfl, rfl, by decide, rfl⟩

/-- The source's space-inserting fold over documentation lines equals the
skip-leading-blank, single-space-join characterisation. -/
theorem docFold_eq_spec :
    ∀ docs : List String,
      docs.foldl (fun acc s => (if acc.isEmpty then acc else acc ++ " ") ++ rustTrim s) ""
        = docFoldSpec docs := by
  have hempty_append : ∀ s : String, "" ++ s = s := fun s => rfl
  have happend : ∀ a b : String, (a ++ b).isEmpty = (a.isEmpty && b.isEmpty) := by
    intro a b
    rw [Bool.eq_iff_iff]
    simp only [String.isEmpty_iff, Bool.and_eq_true]
    constructor
    · intro h
      have hd : a.data ++ b.data = [] := by
        rw [← String.data_append, h]
      obtain ⟨ha, hb⟩ := List.append_eq_nil.mp hd
      exact ⟨String.ext ha, String.ext hb⟩
    · rintro ⟨ha, hb⟩
      rw [ha, hb]
      rfl
  have htail : ∀ (docs : List String) (acc : String), acc.isEmpty = false →
      docs.foldl (fun acc s => (if acc.isEmpty then acc else acc ++ " ") ++ rustTrim s) acc
        = acc ++ docFoldSpec.docTail docs := by
    intro docs
    induction docs with
    | nil =>
      intro acc _
      simp [docFoldSpec.docTail]
    | cons s rest ih =>
      intro acc hacc
      have hstep : (if acc.isEmpty then acc else acc ++ " ") ++ rustTrim s
          = acc ++ " " ++ rustTrim s := by
        rw [hacc]
        simp
      have hne : (acc ++ " " ++ rustTrim s).isEmpty = false := by
        rw [happend, happend]
        simp [hacc]
      simp only [List.foldl_cons, hstep, ih _ hne, docFoldSpec.docTail]
      simp [String.append_assoc]
  intro docs
  induction docs with
  | nil => rfl
  | cons s rest ih =>
    rw [List.foldl_cons]
    have hstep0 : (if ("" : String).isEmpty then ("" : String) else "" ++ " ") ++ rustTrim s
        = rustTrim s := by
      rw [if_pos (by rfl)]
      exact hempty_append (rustTrim s)
    rw [hstep0]
    by_cases hs : rustTrim s = ""
    · rw [hs, ih]
      conv_rhs => rw [docFoldSpec]
      rw [if_pos hs]
    · rw [htail rest (rustTrim s)
        (by rw [Bool.eq_false_iff]; intro h; exact hs ((String.isEmpty_iff (rustTrim s)).mp h))]
      conv_rhs => rw [docFoldSpec]
      rw [if_neg hs]

/-- Claim C8 (amended): the description generated for an annotated
declaration is its documentation-comment lines, each trimmed, joined by
single spaces — except that leading lines that trim to empty contribute
nothing (the fold inserts a separating space only once the accumulated
text is nonempty); a declaration with no documentation comment is a
macro-expansion error, not an empty description. -/
theorem documentation_description (attrs : List Attr) :
    (docLines attrs = [] → documentationString attrs
      = .error "missing documentation comment (///) to use as description")
    ∧ (docLines attrs ≠ [] → documentationString attrs
      = .ok (docFoldSpec (docLines attrs))) := by
  constructor
  · intro h
    simp [documentationString, h]
  · intro h
    have hne : (docLines attrs).isEmpty = false := by
      cases hd : docLines attrs with
      | nil => exact absurd hd h
      | cons a t => rfl
    simp [documentationString, hne, docFold_eq_spec]

/-- Counterexample to C8 as stated: two documentation lines whose first
trims to empty.  Joining the trimmed lines `["", "b"]` by single spaces
gives `" b"`, but the generated description is `"b"` — the fold skips the
separating space while the accumulated text is still empty. -/
theorem documentation_description_counterexample :
    documentationString [.doc "", .doc "b"] = .ok "b"
    ∧ docJoinSpec [.doc "", .doc "b"] = " b"
    ∧ documentationString [.doc "", .doc "b"]
      ≠ .ok (docJoinSpec [.doc "", .doc "b"]) := by
  refine ⟨by decide, by decide, by decide⟩

/-- Witness for C8 (amended): a missing documentation comment is an
error; ordinary lines are trimmed and space-joined. -/
theorem documentation_description_witness :
    documentationString [Attr.other]
      = .error "missing documentation comment (///) to use as description"
    ∧ documentationString [.doc " Ping the bot. ", .doc "Second line."]
      = .ok "Ping the bot. Second line." := by
  constructor
  · exact (documentation_description [Attr.other]).1 rfl
  · have h := (documentation_description
      [.doc " Ping the bot. ", .doc "Second line."]).2 (by decide)
    rw [h]
    decide
